import Mathlib

/-!
Verification of the handshake transcript accumulator (`src/hash_hs.rs`,
`HandshakeHash`).  The Rust struct keeps a running hash of handshake
payloads: bytes are buffered until the digest algorithm is known
(`start_hash`), then hashed incrementally; for client authentication the
raw bytes may additionally be retained in `buffer`.

Embedding conventions:
- Bytes are modelled as `Nat` (no claim depends on the 8-bit bound).
- The external digest engine (the `ring` crate) is modelled by a context
  recording the algorithm and the exact byte sequence fed to it, together
  with an arbitrary digest function `D : Algorithm → List Byte → List Byte`
  applied at `finish`: every deterministic digest is an instance, so a
  statement proved for all `D` captures "the digest of exactly these bytes".
- Rust `&mut self` methods become state-transforming functions; a method
  whose body can panic (a failed `assert!`, `unwrap` on `None`, or
  `unreachable!`) returns `Option`, with `none` modelling the panic.
- `get_current_hash` takes `&self`; it is translated state-passing, its
  result paired with the receiver state, so frame properties are statable.
-/

namespace HashHs

/-- A byte of the transcript. -/
abbrev Byte := Nat

/-- A digest algorithm descriptor (`ring::digest::Algorithm`), identified
opaquely; the accumulator never inspects it. -/
structure Algorithm where
  id : Nat
deriving DecidableEq, Repr

/-- The external digest engine's running context (`ring::digest::Context`),
modelled extensionally: the algorithm it was created with and the bytes fed
to it so far, in order. -/
structure Context where
  alg : Algorithm
  data : List Byte
deriving DecidableEq, Repr

/-- `ring::digest::Context::new(alg)`: fresh context, no bytes fed. -/
def Context.new (alg : Algorithm) : Context :=
  { alg := alg, data := [] }

/-- `ring::digest::Context::update(buf)`: feed bytes to the context. -/
def Context.update (c : Context) (buf : List Byte) : Context :=
  { c with data := c.data ++ buf }

/-- `Clone` on the context: duplicates the running digest state. -/
def Context.clone (c : Context) : Context :=
  c

/-- A digest function: what `finish` computes from the algorithm and the
full byte sequence fed to the context.  Kept abstract (universally
quantified in the theorems) since the hash itself is outside this core. -/
def DigestFn : Type := Algorithm → List Byte → List Byte

/-- `ring::digest::Context::finish`: the digest of exactly the bytes fed. -/
def Context.finish (D : DigestFn) (c : Context) : List Byte :=
  D c.alg c.data

/-- Modelled from the spec: the message layer (`msgs::message`, not part of
this core) delivers structured messages whose payload is either a handshake
payload — consumed here only through its canonical wire encoding, so the
variant carries those bytes directly — or some other record-layer payload
kind, which `add_message` never accepts. -/
inductive MessagePayload where
  | Handshake (enc : List Byte) : MessagePayload
  | ChangeCipherSpec : MessagePayload
  | Alert (enc : List Byte) : MessagePayload
deriving DecidableEq, Repr

/-- Modelled from the spec: a record-layer message; only its payload matters
to the accumulator. -/
structure Message where
  payload : MessagePayload
deriving DecidableEq, Repr

/-- The transcript accumulator `HandshakeHash`:
`ctx` is `none` before the hash function is known; `client_auth_enabled`
records whether all messages must be kept; `buffer` holds bytes for the
pre-hashing stage and for client auth. -/
structure HandshakeHash where
  ctx : Option Context
  client_auth_enabled : Bool
  buffer : List Byte
deriving DecidableEq, Repr

/-- `HandshakeHash::new()`. -/
def HandshakeHash.new : HandshakeHash :=
  { ctx := none, client_auth_enabled := false, buffer := [] }

/-- `HandshakeHash::set_client_auth_enabled`.  `assert!(self.ctx.is_none())`
(panic, modelled `none`, when the digest is already started), then set the
flag. -/
def HandshakeHash.set_client_auth_enabled (h : HandshakeHash) :
    Option HandshakeHash :=
  if h.ctx.isSome then none
  else some { h with client_auth_enabled := true }

/-- `HandshakeHash::abandon_client_auth`: clear the flag and drain the
buffer.  Never panics. -/
def HandshakeHash.abandon_client_auth (h : HandshakeHash) : HandshakeHash :=
  { h with client_auth_enabled := false, buffer := [] }

/-- `HandshakeHash::start_hash(alg)`.  `assert!(self.ctx.is_none())`, then
create a context for `alg`, feed it the whole buffer, and drain the buffer
unless client auth is enabled. -/
def HandshakeHash.start_hash (h : HandshakeHash) (alg : Algorithm) :
    Option HandshakeHash :=
  if h.ctx.isSome then none
  else
    some { h with
           ctx := some ((Context.new alg).update h.buffer),
           buffer := if !h.client_auth_enabled then [] else h.buffer }

/-- `HandshakeHash::update_raw(buf)`: update the context when it exists;
append to the buffer when the context does not exist or client auth is
enabled. -/
def HandshakeHash.update_raw (h : HandshakeHash) (buf : List Byte) :
    HandshakeHash :=
  let h1 :=
    match h.ctx with
    | some c => { h with ctx := some (c.update buf) }
    | none => h
  if h1.ctx.isNone || h1.client_auth_enabled then
    { h1 with buffer := h1.buffer ++ buf }
  else
    h1

/-- `HandshakeHash::add_message(m)`: encode a handshake payload and feed it
via `update_raw`; any other payload hits `unreachable!` (modelled `none`). -/
def HandshakeHash.add_message (h : HandshakeHash) (m : Message) :
    Option HandshakeHash :=
  match m.payload with
  | MessagePayload.Handshake enc => some (h.update_raw enc)
  | _ => none

/-- `HandshakeHash::get_current_hash`: `unwrap` the context (panic when
`none`), clone it, finish the clone.  The receiver is `&self`; the returned
state is the untouched receiver. -/
def HandshakeHash.get_current_hash (D : DigestFn) (h : HandshakeHash) :
    Option (List Byte × HandshakeHash) :=
  match h.ctx with
  | none => none
  | some c => some ((c.clone).finish D, h)

/-- `HandshakeHash::take_handshake_buf`:
`assert!(self.client_auth_enabled)`, then `mem::replace` the buffer with an
empty one, returning the old contents. -/
def HandshakeHash.take_handshake_buf (h : HandshakeHash) :
    Option (List Byte × HandshakeHash) :=
  if h.client_auth_enabled then
    some (h.buffer, { h with buffer := [] })
  else none

/-- One call the owner can make on the accumulator. -/
inductive Op where
  | setClientAuth : Op
  | abandon : Op
  | start (alg : Algorithm) : Op
  | feed (buf : List Byte) : Op
  | addMsg (m : Message) : Op
  | getHash : Op
  | takeBuf : Op
deriving DecidableEq, Repr

/-- The state effect of one call; `none` means the call panicked. -/
def step (D : DigestFn) (h : HandshakeHash) : Op → Option HandshakeHash
  | Op.setClientAuth => h.set_client_auth_enabled
  | Op.abandon => some h.abandon_client_auth
  | Op.start alg => h.start_hash alg
  | Op.feed buf => some (h.update_raw buf)
  | Op.addMsg m => h.add_message m
  | Op.getHash => (h.get_current_hash D).map Prod.snd
  | Op.takeBuf => h.take_handshake_buf.map Prod.snd

/-- Run a call sequence from a given state; `some` exactly when no call
panicked. -/
def runFrom (D : DigestFn) (h : HandshakeHash) : List Op → Option HandshakeHash
  | [] => some h
  | o :: ops => (step D h o).bind fun h' => runFrom D h' ops

/-- Run a call sequence on a fresh accumulator. -/
def run (D : DigestFn) (ops : List Op) : Option HandshakeHash :=
  runFrom D HandshakeHash.new ops

/-- The bytes an operation feeds to the accumulator (`feed`, or the
encoding of a handshake message). -/
def opFed : Op → List Byte
  | Op.feed buf => buf
  | Op.addMsg { payload := MessagePayload.Handshake enc } => enc
  | _ => []

/-- All bytes a call sequence feeds, in order. -/
def fedBytes : List Op → List Byte
  | [] => []
  | o :: ops => opFed o ++ fedBytes ops

/-- A pure sequence of feed calls (`update_raw` on each slice in order). -/
def feedAll (h : HandshakeHash) : List (List Byte) → HandshakeHash
  | [] => h
  | b :: bs => feedAll (h.update_raw b) bs

/-- Operations allowed before digest selection in the positive statements:
feeding bytes and enabling capture — everything the pre-selection phase of
the claims ranges over except discarding/draining the transcript. -/
def Op.feedsOrEnables : Op → Bool
  | Op.feed _ => true
  | Op.addMsg _ => true
  | Op.setClientAuth => true
  | _ => false

/-- A concrete digest function used for witnesses and counterexamples: it
returns the fed bytes themselves, so distinct transcripts give distinct
digests. -/
def idDigest : DigestFn := fun _ l => l

/-! ### Field-level characterization of `update_raw` -/

theorem update_raw_ctx (h : HandshakeHash) (buf : List Byte) :
    (h.update_raw buf).ctx = h.ctx.map (fun c => c.update buf) := by
  unfold HandshakeHash.update_raw
  cases hc : h.ctx
  · simp [hc]
  · simp [hc]
    split
    · rfl
    · rfl

theorem update_raw_flag (h : HandshakeHash) (buf : List Byte) :
    (h.update_raw buf).client_auth_enabled = h.client_auth_enabled := by
  unfold HandshakeHash.update_raw
  cases hc : h.ctx
  · simp [hc]
  · simp [hc]
    split
    · rfl
    · rfl

theorem update_raw_buffer (h : HandshakeHash) (buf : List Byte) :
    (h.update_raw buf).buffer =
      if h.ctx.isNone || h.client_auth_enabled then h.buffer ++ buf
      else h.buffer := by
  unfold HandshakeHash.update_raw
  cases hc : h.ctx
  · simp [hc]
  · simp [hc]
    split
    · simp_all
    · simp_all

/-! ### Trace bookkeeping -/

theorem fedBytes_append (a b : List Op) :
    fedBytes (a ++ b) = fedBytes a ++ fedBytes b := by
  induction a with
  | nil => simp [fedBytes]
  | cons o a ih => simp [fedBytes, ih]

theorem runFrom_append (D : DigestFn) (h : HandshakeHash) (a b : List Op) :
    runFrom D h (a ++ b) = (runFrom D h a).bind fun h' => runFrom D h' b := by
  induction a generalizing h with
  | nil => simp [runFrom]
  | cons o a ih =>
    simp only [List.cons_append, runFrom]
    cases step D h o with
    | none => simp
    | some h1 => simp [ih]

/-! ### Run invariants -/

/-- While the context is live, every successful call sequence extends the
bytes fed to the digest context by exactly the bytes it feeds, and keeps
the algorithm. -/
theorem runFrom_active (D : DigestFn) :
    ∀ (ops : List Op) (h h' : HandshakeHash) (c : Context),
      h.ctx = some c → runFrom D h ops = some h' →
      h'.ctx = some { alg := c.alg, data := c.data ++ fedBytes ops } := by
  intro ops
  induction ops with
  | nil =>
    intro h h' c hc hr
    simp only [runFrom, Option.some_inj] at hr
    subst hr
    simp [fedBytes, hc]
  | cons o ops ih =>
    intro h h' c hc hr
    simp only [runFrom, Option.bind_eq_some] at hr
    obtain ⟨h1, hstep, hrest⟩ := hr
    cases o with
    | setClientAuth =>
      simp [step, HandshakeHash.set_client_auth_enabled, hc] at hstep
    | abandon =>
      simp only [step, Option.some_inj] at hstep
      subst hstep
      have := ih _ h' c (by simp [HandshakeHash.abandon_client_auth, hc]) hrest
      simpa [fedBytes, opFed] using this
    | start alg =>
      simp [step, HandshakeHash.start_hash, hc] at hstep
    | feed buf =>
      simp only [step, Option.some_inj] at hstep
      subst hstep
      have := ih _ h' (c.update buf)
        (by simp [update_raw_ctx, hc]) hrest
      simpa [fedBytes, opFed, Context.update, List.append_assoc] using this
    | addMsg m =>
      cases m with
      | mk payload =>
        cases payload with
        | Handshake enc =>
          simp only [step, HandshakeHash.add_message, Option.some_inj] at hstep
          subst hstep
          have := ih _ h' (c.update enc)
            (by simp [update_raw_ctx, hc]) hrest
          simpa [fedBytes, opFed, Context.update, List.append_assoc] using this
        | ChangeCipherSpec =>
          simp [step, HandshakeHash.add_message] at hstep
        | Alert enc =>
          simp [step, HandshakeHash.add_message] at hstep
    | getHash =>
      simp only [step, HandshakeHash.get_current_hash, hc, Option.map_some',
        Option.some_inj] at hstep
      subst hstep
      have := ih _ h' c hc hrest
      simpa [fedBytes, opFed] using this
    | takeBuf =>
      simp only [step, HandshakeHash.take_handshake_buf] at hstep
      by_cases hf : h.client_auth_enabled
      · simp only [hf, if_pos, Option.map_some', Option.some_inj] at hstep
        subst hstep
        have := ih _ h' c (by simpa using hc) hrest
        simpa [fedBytes, opFed] using this
      · simp [hf] at hstep

/-- Before digest selection, any successful sequence of feed and
enable-capture calls keeps the context uninitialized and appends exactly
the fed bytes to the buffer. -/
theorem runFrom_preselect (D : DigestFn) :
    ∀ (ops : List Op) (h h' : HandshakeHash),
      h.ctx = none → (∀ o ∈ ops, o.feedsOrEnables = true) →
      runFrom D h ops = some h' →
      h'.ctx = none ∧ h'.buffer = h.buffer ++ fedBytes ops := by
  intro ops
  induction ops with
  | nil =>
    intro h h' hc _ hr
    simp only [runFrom, Option.some_inj] at hr
    subst hr
    simp [fedBytes, hc]
  | cons o ops ih =>
    intro h h' hc hok hr
    simp only [runFrom, Option.bind_eq_some] at hr
    obtain ⟨h1, hstep, hrest⟩ := hr
    have hok0 := hok o (List.mem_cons_self o ops)
    have hoks : ∀ o ∈ ops, o.feedsOrEnables = true :=
      fun o ho => hok o (List.mem_cons_of_mem _ ho)
    cases o with
    | setClientAuth =>
      simp only [step, HandshakeHash.set_client_auth_enabled, hc,
        Option.isSome_none, Bool.false_eq_true, if_false,
        Option.some_inj] at hstep
      subst hstep
      obtain ⟨c1, c2⟩ := ih _ h' (by simp [hc]) hoks hrest
      exact ⟨c1, by simpa [fedBytes, opFed] using c2⟩
    | abandon =>
      simp [Op.feedsOrEnables] at hok0
    | start alg =>
      simp [Op.feedsOrEnables] at hok0
    | feed buf =>
      simp only [step, Option.some_inj] at hstep
      subst hstep
      obtain ⟨c1, c2⟩ := ih _ h'
        (by simp [update_raw_ctx, hc]) hoks hrest
      refine ⟨c1, ?_⟩
      rw [c2, update_raw_buffer]
      simp [hc, fedBytes, opFed]
    | addMsg m =>
      cases m with
      | mk payload =>
        cases payload with
        | Handshake enc =>
          simp only [step, HandshakeHash.add_message, Option.some_inj] at hstep
          subst hstep
          obtain ⟨c1, c2⟩ := ih _ h'
            (by simp [update_raw_ctx, hc]) hoks hrest
          refine ⟨c1, ?_⟩
          rw [c2, update_raw_buffer]
          simp [hc, fedBytes, opFed]
        | ChangeCipherSpec =>
          simp [step, HandshakeHash.add_message] at hstep
        | Alert enc =>
          simp [step, HandshakeHash.add_message] at hstep
    | getHash =>
      simp [Op.feedsOrEnables] at hok0
    | takeBuf =>
      simp [Op.feedsOrEnables] at hok0

/-- Once the digest is started with capture off, every successful call
sequence keeps the context live, the capture flag off and the buffer
empty: nothing can ever repopulate the buffer or re-enable capture. -/
theorem runFrom_locked (D : DigestFn) :
    ∀ (ops : List Op) (h h' : HandshakeHash),
      h.ctx.isSome = true → h.client_auth_enabled = false → h.buffer = [] →
      runFrom D h ops = some h' →
      h'.ctx.isSome = true ∧ h'.client_auth_enabled = false ∧
        h'.buffer = [] := by
  intro ops
  induction ops with
  | nil =>
    intro h h' hc hf hb hr
    simp only [runFrom, Option.some_inj] at hr
    subst hr
    exact ⟨hc, hf, hb⟩
  | cons o ops ih =>
    intro h h' hc hf hb hr
    simp only [runFrom, Option.bind_eq_some] at hr
    obtain ⟨h1, hstep, hrest⟩ := hr
    cases o with
    | setClientAuth =>
      simp [step, HandshakeHash.set_client_auth_enabled, hc] at hstep
    | abandon =>
      simp only [step, Option.some_inj] at hstep
      subst hstep
      exact ih _ h' (by simpa [HandshakeHash.abandon_client_auth] using hc)
        (by simp [HandshakeHash.abandon_client_auth])
        (by simp [HandshakeHash.abandon_client_auth]) hrest
    | start alg =>
      simp [step, HandshakeHash.start_hash, hc] at hstep
    | feed buf =>
      simp only [step, Option.some_inj] at hstep
      subst hstep
      refine ih _ h' ?_ ?_ ?_ hrest
      · simp [update_raw_ctx, Option.isSome_map', hc]
      · simp [update_raw_flag, hf]
      · rw [update_raw_buffer]
        have hnn : h.ctx.isNone = false := by
          cases hcx : h.ctx
          · rw [hcx] at hc
            simp at hc
          · simp [hcx]
        simp [hf, hb, hnn]
    | addMsg m =>
      cases m with
      | mk payload =>
        cases payload with
        | Handshake enc =>
          simp only [step, HandshakeHash.add_message, Option.some_inj] at hstep
          subst hstep
          refine ih _ h' ?_ ?_ ?_ hrest
          · simp [update_raw_ctx, Option.isSome_map', hc]
          · simp [update_raw_flag, hf]
          · rw [update_raw_buffer]
            have hnn : h.ctx.isNone = false := by
              cases hcx : h.ctx
              · rw [hcx] at hc
                simp at hc
              · simp [hcx]
            simp [hf, hb, hnn]
        | ChangeCipherSpec =>
          simp [step, HandshakeHash.add_message] at hstep
        | Alert enc =>
          simp [step, HandshakeHash.add_message] at hstep
    | getHash =>
      obtain ⟨c, hcx⟩ := Option.isSome_iff_exists.mp hc
      simp only [step, HandshakeHash.get_current_hash, hcx, Option.map_some',
        Option.some_inj] at hstep
      subst hstep
      exact ih _ h' hc hf hb hrest
    | takeBuf =>
      simp [step, HandshakeHash.take_handshake_buf, hf] at hstep

/-! ### Pure feed sequences -/

theorem feedAll_append (h : HandshakeHash) (a b : List (List Byte)) :
    feedAll h (a ++ b) = feedAll (feedAll h a) b := by
  induction a generalizing h with
  | nil => rfl
  | cons x a ih => simp [feedAll, ih]

/-- Pre-selection, feeding slices appends their concatenation to the
buffer, leaves the context uninitialized and the flag untouched. -/
theorem feedAll_preselect :
    ∀ (bufs : List (List Byte)) (h : HandshakeHash), h.ctx = none →
      (feedAll h bufs).ctx = none ∧
      (feedAll h bufs).client_auth_enabled = h.client_auth_enabled ∧
      (feedAll h bufs).buffer = h.buffer ++ bufs.flatten := by
  intro bufs
  induction bufs with
  | nil =>
    intro h hc
    simp [feedAll, hc]
  | cons b bs ih =>
    intro h hc
    obtain ⟨c1, c2, c3⟩ := ih (h.update_raw b) (by simp [update_raw_ctx, hc])
    simp only [feedAll]
    refine ⟨c1, ?_, ?_⟩
    · rw [c2, update_raw_flag]
    · rw [c3, update_raw_buffer]
      simp [hc]

/-- Post-selection with capture on, feeding slices extends both the digest
context and the buffer by exactly their concatenation. -/
theorem feedAll_active_capture :
    ∀ (bufs : List (List Byte)) (h : HandshakeHash) (c : Context),
      h.ctx = some c → h.client_auth_enabled = true →
      (feedAll h bufs).ctx = some { alg := c.alg, data := c.data ++ bufs.flatten } ∧
      (feedAll h bufs).client_auth_enabled = true ∧
      (feedAll h bufs).buffer = h.buffer ++ bufs.flatten := by
  intro bufs
  induction bufs with
  | nil =>
    intro h c hc hf
    simp [feedAll, hc, hf]
  | cons b bs ih =>
    intro h c hc hf
    obtain ⟨c1, c2, c3⟩ := ih (h.update_raw b) (c.update b)
      (by simp [update_raw_ctx, hc]) (by simp [update_raw_flag, hf])
    simp only [feedAll]
    refine ⟨?_, c2, ?_⟩
    · rw [c1]
      simp [Context.update, List.append_assoc]
    · rw [c3, update_raw_buffer]
      simp [hf, List.append_assoc]

/-! ### The claims -/

/-- C2: for every sequence of byte slices fed via `update_raw` while the
digest state is uninitialized, the buffer afterwards equals their
concatenation in order, regardless of the client-auth capture flag — and
the digest state stays uninitialized. -/
theorem C2_preselect_buffer_is_concat (b : Bool) (bufs : List (List Byte)) :
    (feedAll { ctx := none, client_auth_enabled := b, buffer := [] } bufs).buffer
        = bufs.flatten ∧
      (feedAll { ctx := none, client_auth_enabled := b, buffer := [] } bufs).ctx
        = none := by
  obtain ⟨c1, _, c3⟩ :=
    feedAll_preselect bufs { ctx := none, client_auth_enabled := b, buffer := [] } rfl
  exact ⟨by simpa using c3, c1⟩

/-- C4: selecting the digest algorithm while capture is off empties the
buffer at once, and across every successful subsequent call sequence the
buffer stays empty and capture stays off for the rest of the accumulator's
life. -/
theorem C4_capture_off_buffer_empty_forever (D : DigestFn)
    (h h1 h2 : HandshakeHash) (alg : Algorithm) (ops : List Op)
    (hflag : h.client_auth_enabled = false)
    (hsel : h.start_hash alg = some h1)
    (hrun : runFrom D h1 ops = some h2) :
    h1.buffer = [] ∧ h2.buffer = [] ∧ h2.client_auth_enabled = false := by
  by_cases hcx : h.ctx.isSome = true
  · rw [HandshakeHash.start_hash, if_pos hcx] at hsel
    exact absurd hsel (by simp)
  · rw [HandshakeHash.start_hash, if_neg hcx] at hsel
    have hsel' := Option.some_inj.mp hsel
    subst hsel'
    obtain ⟨_, l2, l3⟩ := runFrom_locked D ops _ h2
      (by simp) (by simpa using hflag) (by simp [hflag]) hrun
    exact ⟨by simp [hflag], l3, l2⟩

/-- C4 applied concretely: select SHA-like algorithm `0` on a fresh
accumulator (capture off), then feed, read the digest and abandon; the
buffer is empty at selection and still empty at the end. -/
theorem C4_witness :
    ({ ctx := some { alg := { id := 0 }, data := [] },
       client_auth_enabled := false, buffer := [] } : HandshakeHash).buffer = [] ∧
    ({ ctx := some { alg := { id := 0 }, data := [7] },
       client_auth_enabled := false, buffer := [] } : HandshakeHash).buffer = [] ∧
    ({ ctx := some { alg := { id := 0 }, data := [7] },
       client_auth_enabled := false, buffer := [] } : HandshakeHash).client_auth_enabled
      = false :=
  C4_capture_off_buffer_empty_forever idDigest HandshakeHash.new
    { ctx := some { alg := { id := 0 }, data := [] },
      client_auth_enabled := false, buffer := [] }
    { ctx := some { alg := { id := 0 }, data := [7] },
      client_auth_enabled := false, buffer := [] }
    { id := 0 } [Op.feed [7], Op.getHash, Op.abandon]
    rfl (by decide) (by decide)

/-- C7: every contract violation is a panic (modelled `none`), never a
recoverable error value — the embedding gives every fallible operation the
shape `Option _` with no error channel.  Enabling capture with the digest
active panics, selecting the digest twice panics, and reading the digest
before selection panics; each panics exactly then. -/
theorem C7_contract_violations_panic (D : DigestFn) (h : HandshakeHash)
    (alg : Algorithm) :
    (h.set_client_auth_enabled = none ↔ h.ctx.isSome = true) ∧
    (h.start_hash alg = none ↔ h.ctx.isSome = true) ∧
    (h.get_current_hash D = none ↔ h.ctx.isSome = false) := by
  cases hcx : h.ctx <;>
    simp [HandshakeHash.set_client_auth_enabled, HandshakeHash.start_hash,
      HandshakeHash.get_current_hash, hcx]

/-- C8: with capture on, `take_handshake_buf` returns the whole buffered
byte sequence and leaves the buffer empty in place, so an immediate second
call returns the empty sequence; with capture off it panics. -/
theorem C8_take_handshake_buf_drain (h : HandshakeHash) :
    (h.client_auth_enabled = true →
      h.take_handshake_buf = some (h.buffer, { h with buffer := [] }) ∧
      ({ h with buffer := [] } : HandshakeHash).take_handshake_buf
        = some ([], { h with buffer := [] })) ∧
    (h.client_auth_enabled = false → h.take_handshake_buf = none) := by
  constructor
  · intro hf
    constructor
    · simp [HandshakeHash.take_handshake_buf, hf]
    · simp [HandshakeHash.take_handshake_buf, hf]
  · intro hf
    simp [HandshakeHash.take_handshake_buf, hf]

/-- C8 applied concretely: draining a capture-enabled accumulator holding
`[2, 3]` returns `[2, 3]` and empties the buffer; draining again returns
`[]`. -/
theorem C8_witness :
    ({ ctx := none, client_auth_enabled := true, buffer := [2, 3] }
        : HandshakeHash).take_handshake_buf
      = some ([2, 3],
          { ctx := none, client_auth_enabled := true, buffer := [] }) ∧
    ({ ctx := none, client_auth_enabled := true, buffer := [] }
        : HandshakeHash).take_handshake_buf
      = some ([],
          { ctx := none, client_auth_enabled := true, buffer := [] }) :=
  (C8_take_handshake_buf_drain
    { ctx := none, client_auth_enabled := true, buffer := [2, 3] }).1 rfl

/-- C9: `add_message` is only total on handshake payloads; every message
with any other payload variant hits the `unreachable!` branch (modelled
`none`: the call aborts, hashing and buffering nothing). -/
theorem C9_add_message_non_handshake_panics (h : HandshakeHash) (m : Message)
    (hm : ∀ enc, m.payload ≠ MessagePayload.Handshake enc) :
    h.add_message m = none := by
  cases m with
  | mk payload =>
    cases payload with
    | Handshake enc => exact absurd rfl (hm enc)
    | ChangeCipherSpec => rfl
    | Alert enc => rfl

/-- C9 applied concretely: a change-cipher-spec message panics
`add_message` on a fresh accumulator. -/
theorem C9_witness :
    HandshakeHash.new.add_message { payload := MessagePayload.ChangeCipherSpec }
      = none :=
  C9_add_message_non_handshake_panics HandshakeHash.new
    { payload := MessagePayload.ChangeCipherSpec }
    (fun _ hcon => MessagePayload.noConfusion hcon)

/-- C10: `get_current_hash` is observation-only: when it returns, the
returned accumulator is exactly the receiver — digest context, capture flag
and buffer unchanged (the digest is finished on a clone of the context) —
so an immediate second call returns the same digest value. -/
theorem C10_get_current_hash_pure (D : DigestFn) (h h' : HandshakeHash)
    (r : List Byte) (hget : h.get_current_hash D = some (r, h')) :
    h' = h ∧ h'.ctx = h.ctx ∧
      h'.client_auth_enabled = h.client_auth_enabled ∧
      h'.buffer = h.buffer ∧
      h'.get_current_hash D = some (r, h') := by
  cases hcx : h.ctx with
  | none =>
    rw [HandshakeHash.get_current_hash, hcx] at hget
    exact absurd hget (by simp)
  | some c =>
    simp only [HandshakeHash.get_current_hash, hcx, Option.some_inj,
      Prod.mk.injEq] at hget
    obtain ⟨hr, hh⟩ := hget
    subst hh
    subst hr
    refine ⟨rfl, hcx, rfl, rfl, ?_⟩
    simp [HandshakeHash.get_current_hash, hcx]

/-- C10 applied concretely: reading the digest of an active accumulator
returns the receiver unchanged and a second read gives the same value. -/
theorem C10_witness :
    ({ ctx := some { alg := { id := 0 }, data := [5] },
       client_auth_enabled := false, buffer := [] } : HandshakeHash)
        = { ctx := some { alg := { id := 0 }, data := [5] },
            client_auth_enabled := false, buffer := [] } ∧
      ({ ctx := some { alg := { id := 0 }, data := [5] },
         client_auth_enabled := false, buffer := [] } : HandshakeHash).ctx
        = some { alg := { id := 0 }, data := [5] } ∧
      ({ ctx := some { alg := { id := 0 }, data := [5] },
         client_auth_enabled := false, buffer := [] } : HandshakeHash).client_auth_enabled
        = false ∧
      ({ ctx := some { alg := { id := 0 }, data := [5] },
         client_auth_enabled := false, buffer := [] } : HandshakeHash).buffer
        = [] ∧
      HandshakeHash.get_current_hash idDigest
          { ctx := some { alg := { id := 0 }, data := [5] },
            client_auth_enabled := false, buffer := [] }
        = some ([5],
            { ctx := some { alg := { id := 0 }, data := [5] },
              client_auth_enabled := false, buffer := [] }) :=
  C10_get_current_hash_pure idDigest
    { ctx := some { alg := { id := 0 }, data := [5] },
      client_auth_enabled := false, buffer := [] }
    { ctx := some { alg := { id := 0 }, data := [5] },
      client_auth_enabled := false, buffer := [] }
    [5] rfl

/-- C1 as stated is false: the digest is not unaffected by capture-flag
toggles.  In the run below the only byte ever fed is `1`, but the toggle
`abandon_client_auth` before selection drains the buffer, so the digest
context is seeded from `[]`: with the digest function `idDigest`,
`get_current_hash` returns `idDigest alg [] = []` while the digest of all
bytes ever fed is `idDigest alg [1] = [1]`. -/
theorem C1_counterexample :
    run idDigest [Op.feed [1], Op.abandon, Op.start { id := 0 }]
        = some { ctx := some { alg := { id := 0 }, data := [] },
                 client_auth_enabled := false, buffer := [] } ∧
      (HandshakeHash.get_current_hash idDigest
          { ctx := some { alg := { id := 0 }, data := [] },
            client_auth_enabled := false, buffer := [] }).map Prod.fst
        = some [] ∧
      fedBytes [Op.feed [1], Op.abandon, Op.start { id := 0 }] = [1] ∧
      idDigest { id := 0 }
          (fedBytes [Op.feed [1], Op.abandon, Op.start { id := 0 }])
        ≠ [] := by
  decide

/-- C1 (amended): for every sequence of feed calls with capture-flag
toggles interleaved, provided `abandon_client_auth` is not called before
digest selection, once `start_hash alg` has been performed,
`get_current_hash` returns the digest of the concatenation of all bytes
ever fed, pre- and post-selection, in order — for every digest function;
in particular, immediately after selection it is the digest of the buffer
at selection time. -/
theorem C1_digest_covers_all_fed (D : DigestFn) (pre post : List Op)
    (alg : Algorithm) (h' : HandshakeHash)
    (hpre : ∀ o ∈ pre, o.feedsOrEnables = true)
    (hrun : run D (pre ++ Op.start alg :: post) = some h') :
    h'.get_current_hash D
      = some (D alg (fedBytes (pre ++ Op.start alg :: post)), h') := by
  unfold run at hrun
  rw [show pre ++ Op.start alg :: post = (pre ++ [Op.start alg]) ++ post by
        simp, runFrom_append] at hrun
  cases hmid : runFrom D HandshakeHash.new (pre ++ [Op.start alg]) with
  | none =>
    rw [hmid] at hrun
    exact absurd hrun (by simp)
  | some h1 =>
    rw [hmid, Option.some_bind] at hrun
    rw [runFrom_append] at hmid
    cases hpre0 : runFrom D HandshakeHash.new pre with
    | none =>
      rw [hpre0] at hmid
      exact absurd hmid (by simp)
    | some h0 =>
      rw [hpre0, Option.some_bind] at hmid
      obtain ⟨hc0, hb0⟩ :=
        runFrom_preselect D pre HandshakeHash.new h0 rfl hpre hpre0
      simp only [runFrom, step, HandshakeHash.start_hash, hc0,
        Option.isSome_none, Bool.false_eq_true, if_false,
        Option.some_bind, Option.some_inj] at hmid
      have h1ctx : h1.ctx = some { alg := alg, data := fedBytes pre } := by
        rw [← hmid]
        simp [Context.new, Context.update, hb0,
          HandshakeHash.new]
      have hfin := runFrom_active D post h1 h'
        { alg := alg, data := fedBytes pre } h1ctx hrun
      rw [HandshakeHash.get_current_hash]
      rw [hfin]
      simp [Context.finish, Context.clone, fedBytes_append, fedBytes, opFed]

/-- C1 applied concretely: enable capture, feed `[1]`, select algorithm
`0`, feed `[2]`; the digest read afterwards is the digest of `[1, 2]`. -/
theorem C1_witness :
    HandshakeHash.get_current_hash idDigest
        { ctx := some { alg := { id := 0 }, data := [1, 2] },
          client_auth_enabled := true, buffer := [1, 2] }
      = some (idDigest { id := 0 }
            (fedBytes ([Op.setClientAuth, Op.feed [1]]
              ++ Op.start { id := 0 } :: [Op.feed [2]])),
          { ctx := some { alg := { id := 0 }, data := [1, 2] },
            client_auth_enabled := true, buffer := [1, 2] }) :=
  C1_digest_covers_all_fed idDigest [Op.setClientAuth, Op.feed [1]]
    [Op.feed [2]] { id := 0 }
    { ctx := some { alg := { id := 0 }, data := [1, 2] },
      client_auth_enabled := true, buffer := [1, 2] }
    (by decide) (by decide)

/-- C3 as stated is false: in the run below capture is true at selection
time (second conjunct) and is never discarded after selection, yet after
the post-selection feed the buffer is `[2]`, not the concatenation
`[1, 2]` of all bytes ever fed — the pre-selection
`abandon_client_auth` threw the byte `1` away even though capture was
re-enabled before selection. -/
theorem C3_counterexample :
    run idDigest [Op.setClientAuth, Op.feed [1], Op.abandon,
        Op.setClientAuth, Op.start { id := 0 }, Op.feed [2]]
        = some { ctx := some { alg := { id := 0 }, data := [2] },
                 client_auth_enabled := true, buffer := [2] } ∧
      (run idDigest [Op.setClientAuth, Op.feed [1], Op.abandon,
          Op.setClientAuth, Op.start { id := 0 }]).map
          HandshakeHash.client_auth_enabled = some true ∧
      fedBytes [Op.setClientAuth, Op.feed [1], Op.abandon,
          Op.setClientAuth, Op.start { id := 0 }, Op.feed [2]] = [1, 2] ∧
      ([2] : List Byte) ≠ [1, 2] := by
  decide

/-- C3 (amended): if capture is true at selection time and the transcript
was never discarded — neither after selection nor before it — then after
every subsequent sequence of feed calls the buffer equals the full
concatenation of all bytes ever fed, pre- and post-selection, and it grows
monotonically: the buffer after any prefix of the feeds is a prefix of the
final buffer. -/
theorem C3_capture_on_buffer_all_bytes (D : DigestFn) (pre : List Op)
    (alg : Algorithm) (h1 : HandshakeHash) (post : List (List Byte))
    (hpre : ∀ o ∈ pre, o.feedsOrEnables = true)
    (hsel : run D (pre ++ [Op.start alg]) = some h1)
    (hflag : h1.client_auth_enabled = true) :
    (feedAll h1 post).buffer = fedBytes pre ++ post.flatten ∧
      ∀ n, ∃ rest, (feedAll h1 post).buffer
        = (feedAll h1 (post.take n)).buffer ++ rest := by
  unfold run at hsel
  rw [runFrom_append] at hsel
  cases hpre0 : runFrom D HandshakeHash.new pre with
  | none =>
    rw [hpre0] at hsel
    exact absurd hsel (by simp)
  | some h0 =>
    rw [hpre0, Option.some_bind] at hsel
    obtain ⟨hc0, hb0⟩ :=
      runFrom_preselect D pre HandshakeHash.new h0 rfl hpre hpre0
    simp only [runFrom, step, HandshakeHash.start_hash, hc0,
      Option.isSome_none, Bool.false_eq_true, if_false,
      Option.some_bind, Option.some_inj] at hsel
    have hf0 : h0.client_auth_enabled = true := by
      have : h1.client_auth_enabled = h0.client_auth_enabled := by
        rw [← hsel]
      rw [← this, hflag]
    have h1ctx : h1.ctx = some { alg := alg, data := fedBytes pre } := by
      rw [← hsel]
      simp [Context.new, Context.update, hb0, HandshakeHash.new]
    have h1buf : h1.buffer = fedBytes pre := by
      rw [← hsel]
      simp only [hf0, Bool.not_true, Bool.false_eq_true, if_false]
      rw [hb0]
      simp [HandshakeHash.new]
    obtain ⟨a1, a2, a3⟩ := feedAll_active_capture post h1
      { alg := alg, data := fedBytes pre } h1ctx hflag
    refine ⟨by rw [a3, h1buf], ?_⟩
    intro n
    refine ⟨(post.drop n).flatten, ?_⟩
    obtain ⟨t1, t2, t3⟩ := feedAll_active_capture (post.take n) h1
      { alg := alg, data := fedBytes pre } h1ctx hflag
    obtain ⟨d1, _, d3⟩ := feedAll_active_capture (post.drop n)
      (feedAll h1 (post.take n))
      { alg := alg, data := fedBytes pre ++ (post.take n).flatten } t1 t2
    calc (feedAll h1 post).buffer
        = (feedAll (feedAll h1 (post.take n)) (post.drop n)).buffer := by
          rw [← feedAll_append, List.take_append_drop]
      _ = (feedAll h1 (post.take n)).buffer ++ (post.drop n).flatten := d3

/-- C3 applied concretely: enable capture, feed `[1]`, select algorithm
`0`, then feed `[2]`; the buffer is `[1, 2]`, all bytes ever fed. -/
theorem C3_witness :
    (feedAll { ctx := some { alg := { id := 0 }, data := [1] },
               client_auth_enabled := true, buffer := [1] } [[2]]).buffer
      = fedBytes [Op.setClientAuth, Op.feed [1]] ++ [[2]].flatten :=
  (C3_capture_on_buffer_all_bytes idDigest [Op.setClientAuth, Op.feed [1]]
    { id := 0 }
    { ctx := some { alg := { id := 0 }, data := [1] },
      client_auth_enabled := true, buffer := [1] }
    [[2]] (by decide) (by decide) rfl).1

/-- C5 as stated is false: after a pre-selection
`abandon_client_auth`, a single feed repopulates the buffer — the claim
says no later feed ever makes it non-empty again. -/
theorem C5_counterexample :
    run idDigest [Op.abandon, Op.feed [1]]
        = some { ctx := none, client_auth_enabled := false, buffer := [1] } ∧
      ([1] : List Byte) ≠ [] := by
  decide

/-- C5 (amended): calling `abandon_client_auth` while the digest is active
clears the buffer, no successful later call sequence ever repopulates it,
and the digest is unaffected: `get_current_hash` returns the same value as
before the discard, and the context goes on covering every byte fed
afterwards.  (Called before selection it also clears the buffer, but later
feeds repopulate it and the cleared bytes are lost to the digest.) -/
theorem C5_abandon_post_selection (D : DigestFn) (h h' : HandshakeHash)
    (c : Context) (ops : List Op)
    (hctx : h.ctx = some c)
    (hrun : runFrom D h.abandon_client_auth ops = some h') :
    h.abandon_client_auth.buffer = [] ∧
      h.abandon_client_auth.ctx = h.ctx ∧
      (h.abandon_client_auth.get_current_hash D).map Prod.fst
        = (h.get_current_hash D).map Prod.fst ∧
      h'.buffer = [] ∧
      h'.ctx = some { alg := c.alg, data := c.data ++ fedBytes ops } := by
  have habd : h.abandon_client_auth.ctx = some c := by
    simpa [HandshakeHash.abandon_client_auth] using hctx
  obtain ⟨_, _, l3⟩ := runFrom_locked D ops h.abandon_client_auth h'
    (by simp [habd]) (by simp [HandshakeHash.abandon_client_auth])
    (by simp [HandshakeHash.abandon_client_auth]) hrun
  refine ⟨by simp [HandshakeHash.abandon_client_auth],
    by simp [HandshakeHash.abandon_client_auth], ?_, l3,
    runFrom_active D ops h.abandon_client_auth h' c habd hrun⟩
  simp [HandshakeHash.get_current_hash, habd, hctx]

/-- C5 applied concretely: with digest active over `[1]` and capture on,
abandoning clears the buffer, a later feed of `[2]` leaves it empty, and
the context ends covering `[1, 2]`. -/
theorem C5_witness :
    ({ ctx := some { alg := { id := 0 }, data := [1] },
       client_auth_enabled := true, buffer := [1] }
        : HandshakeHash).abandon_client_auth.buffer = [] ∧
      ({ ctx := some { alg := { id := 0 }, data := [1] },
         client_auth_enabled := true, buffer := [1] }
          : HandshakeHash).abandon_client_auth.ctx
        = ({ ctx := some { alg := { id := 0 }, data := [1] },
             client_auth_enabled := true, buffer := [1] }
            : HandshakeHash).ctx ∧
      (HandshakeHash.get_current_hash idDigest
          ({ ctx := some { alg := { id := 0 }, data := [1] },
             client_auth_enabled := true, buffer := [1] }
            : HandshakeHash).abandon_client_auth).map Prod.fst
        = (HandshakeHash.get_current_hash idDigest
            { ctx := some { alg := { id := 0 }, data := [1] },
              client_auth_enabled := true, buffer := [1] }).map Prod.fst ∧
      ({ ctx := some { alg := { id := 0 }, data := [1, 2] },
         client_auth_enabled := false, buffer := [] } : HandshakeHash).buffer
        = [] ∧
      ({ ctx := some { alg := { id := 0 }, data := [1, 2] },
         client_auth_enabled := false, buffer := [] } : HandshakeHash).ctx
        = some { alg := { id := 0 },
                 data := [1] ++ fedBytes [Op.feed [2]] } :=
  C5_abandon_post_selection idDigest
    { ctx := some { alg := { id := 0 }, data := [1] },
      client_auth_enabled := true, buffer := [1] }
    { ctx := some { alg := { id := 0 }, data := [1, 2] },
      client_auth_enabled := false, buffer := [] }
    { alg := { id := 0 }, data := [1] }
    [Op.feed [2]] rfl (by decide)

/-- C6 as stated is false: before digest selection,
`set_client_auth_enabled` re-enables capture after a discard — the run
below ends with the flag true again. -/
theorem C6_counterexample :
    run idDigest [Op.setClientAuth, Op.abandon, Op.setClientAuth]
      = some { ctx := none, client_auth_enabled := true, buffer := [] } := by
  decide

/-- C6 (amended): `abandon_client_auth` turns capture off and discards the
buffered content immediately; when the digest is active at that moment the
change is irreversible — no successful call sequence ever makes the flag
true again for the rest of the accumulator's life.  (While the digest is
still uninitialized, `set_client_auth_enabled` can re-enable it.) -/
theorem C6_abandon_irreversible_post_selection (D : DigestFn)
    (h h' : HandshakeHash) (ops : List Op)
    (hctx : h.ctx.isSome = true)
    (hrun : runFrom D h.abandon_client_auth ops = some h') :
    h.abandon_client_auth.client_auth_enabled = false ∧
      h.abandon_client_auth.buffer = [] ∧
      h'.client_auth_enabled = false := by
  obtain ⟨_, l2, _⟩ := runFrom_locked D ops h.abandon_client_auth h'
    (by simpa [HandshakeHash.abandon_client_auth] using hctx)
    (by simp [HandshakeHash.abandon_client_auth])
    (by simp [HandshakeHash.abandon_client_auth]) hrun
  exact ⟨by simp [HandshakeHash.abandon_client_auth],
    by simp [HandshakeHash.abandon_client_auth], l2⟩

/-- C6 applied concretely: abandoning an active, capture-on accumulator
turns the flag off and empties the buffer, and after feeding, reading the
digest and draining the (empty) transcript the flag is still off. -/
theorem C6_witness :
    ({ ctx := some { alg := { id := 0 }, data := [1] },
       client_auth_enabled := true, buffer := [1] }
        : HandshakeHash).abandon_client_auth.client_auth_enabled = false ∧
      ({ ctx := some { alg := { id := 0 }, data := [1] },
         client_auth_enabled := true, buffer := [1] }
          : HandshakeHash).abandon_client_auth.buffer = [] ∧
      ({ ctx := some { alg := { id := 0 }, data := [1, 3] },
         client_auth_enabled := false, buffer := [] }
          : HandshakeHash).client_auth_enabled = false :=
  C6_abandon_irreversible_post_selection idDigest
    { ctx := some { alg := { id := 0 }, data := [1] },
      client_auth_enabled := true, buffer := [1] }
    { ctx := some { alg := { id := 0 }, data := [1, 3] },
      client_auth_enabled := false, buffer := [] }
    [Op.feed [3], Op.getHash] rfl (by decide)

end HashHs
